import Mathlib

/-!
Verification of the store library in `src/store.js` (writable / readable /
derived stores in the svelte style).

The JavaScript code is embedded shallowly.  Subscriber callbacks are
identified by `SubId` (modelling JavaScript function-reference identity:
two subscriptions of the same function share one id, distinct functions
get distinct ids).  Effects are made explicit: every operation returns the
new store state together with the list of observable events it produced
(`notify id v` — a subscriber callback invoked with value `v`,
`hookFired` — the `onFirstSubscription` activation hook invoked,
`cleanupFired` — the stored `onLastUnsubsribe` cleanup invoked).

Strict equality (`===`) on the stored values is modelled by decidable
equality; the claims only exercise primitive values, for which the two
coincide.
-/

namespace Stores

/-- Identity of a subscriber callback (JS function reference). -/
abbrev SubId := Nat

/-- Observable events of a writable store. -/
inductive Ev (T : Type) where
  | notify (id : SubId) (v : T)
  | hookFired
  | cleanupFired
deriving DecidableEq, Repr

/-- State of one `writable` store (the closure variables `state`,
`subscriptions`, `onLastUnsubsribe`).  `onLastUnsubsribe : Bool` records
whether a cleanup function is currently stored (JS: non-null); the cleanup
itself only produces the `cleanupFired` event when run. -/
structure Store (T : Type) where
  state : T
  subscriptions : List SubId
  onLastUnsubsribe : Bool
deriving DecidableEq, Repr

/-- The store as first constructed: `state = initialState`, no
subscriptions, no stored cleanup. -/
def Store.init {T : Type} (initialState : T) : Store T :=
  ⟨initialState, [], false⟩

/-- `set = value => { if (state === value) return; state = value;
subscriptions.forEach(fn => fn(state)); }` — subscriber callbacks here are
pure observers, so each invocation is one `notify` event. -/
def Store.set {T : Type} [DecidableEq T] (s : Store T) (v : T) :
    Store T × List (Ev T) :=
  if s.state = v then (s, [])
  else ({ s with state := v }, s.subscriptions.map (fun id => Ev.notify id v))

/-- `update = fn => { set(fn(state)); }`. -/
def Store.update {T : Type} [DecidableEq T] (s : Store T) (f : T → T) :
    Store T × List (Ev T) :=
  s.set (f s.state)

/-- A defunctionalised `onFirstSubscription` hook: the sequence of values
it passes to `set` during its synchronous run, and whether its return
value is a function (stored as `onLastUnsubsribe`).  `none` models a store
constructed without a hook (`onFirstSubscription = null`). -/
abbrev Hook (T : Type) := Option (List T × Bool)

/-- Run a sequence of `set` calls (the body of a hook), accumulating
events. -/
def runSets {T : Type} [DecidableEq T] (s : Store T) :
    List T → Store T × List (Ev T)
  | [] => (s, [])
  | v :: vs =>
    let p := s.set v
    let q := runSets p.1 vs
    (q.1, p.2 ++ q.2)

/-- The guarded hook call inside `subscribe`:
`if (subscriptions.length === 1 && onFirstSubscription)
{ onLastUnsubsribe = onFirstSubscription(set) || null; }` — the hook body
performs its `set` calls, and its return value (function or not) is
stored as the cleanup flag. -/
def hookRun {T : Type} [DecidableEq T] (hook : Hook T) (s1 : Store T) :
    Store T × List (Ev T) :=
  match hook with
  | none => (s1, [])
  | some (sets, ret) =>
    if s1.subscriptions.length = 1 then
      let q := runSets s1 sets
      ({ q.1 with onLastUnsubsribe := ret }, Ev.hookFired :: q.2)
    else (s1, [])

/-- `subscribe = run => { subscriptions = [...subscriptions, run];
if (subscriptions.length === 1 && onFirstSubscription)
{ onLastUnsubsribe = onFirstSubscription(set) || null; } run(state); ... }`.
The callback is appended first; the hook (if any) fires when the appended
list has length 1; then the callback is invoked once more with the current
state. -/
def Store.subscribe {T : Type} [DecidableEq T] (hook : Hook T) (s : Store T)
    (id : SubId) : Store T × List (Ev T) :=
  let s1 : Store T := { s with subscriptions := s.subscriptions ++ [id] }
  let p := hookRun hook s1
  (p.1, p.2 ++ [Ev.notify id p.1.state])

/-- The unsubscribe closure returned by `subscribe(run)`:
`subscriptions = subscriptions.filter(fn => fn !== run);
if (subscriptions.length === 0) { onLastUnsubsribe && onLastUnsubsribe();
onLastUnsubsribe = null; }`.  Removal is by reference equality, so every
entry equal to `id` is removed. -/
def Store.unsubscribe {T : Type} (s : Store T) (id : SubId) :
    Store T × List (Ev T) :=
  let subs := s.subscriptions.filter (fun fn => fn ≠ id)
  if subs.length = 0 then
    (⟨s.state, subs, false⟩, if s.onLastUnsubsribe then [Ev.cleanupFired] else [])
  else ({ s with subscriptions := subs }, [])

/-! ### Basic lemmas about `set` -/

theorem set_of_eq {T : Type} [DecidableEq T] (s : Store T) (v : T)
    (h : s.state = v) : s.set v = (s, []) := by
  simp [Store.set, h]

theorem set_of_ne {T : Type} [DecidableEq T] (s : Store T) (v : T)
    (h : s.state ≠ v) :
    s.set v = ({ s with state := v },
      s.subscriptions.map (fun id => Ev.notify id v)) := by
  simp [Store.set, h]

/-- **C4.** `set(value)` with `value` strictly equal to the current state
leaves the store unchanged and notifies nobody; and for `v1 = v2`
(strict equality) with the current state different from `v1`,
`set(v1); set(v2)` produces exactly one `notify` event per current
subscriber entry (the second `set` is a no-op). -/
theorem set_strict_equality_dedup {T : Type} [DecidableEq T] (s : Store T)
    (v1 v2 : T) (heq : v1 = v2) (hne : s.state ≠ v1) :
    (∀ (s' : Store T) (w : T), s'.state = w → s'.set w = (s', [])) ∧
    (s.set v1).2 ++ ((s.set v1).1.set v2).2
      = s.subscriptions.map (fun id => Ev.notify id v1) := by
  subst heq
  refine ⟨fun s' w hw => set_of_eq s' w hw, ?_⟩
  simp [Store.set, hne]

/-- Witness for C4: a store in state `0` with one subscriber `7`. -/
theorem set_strict_equality_dedup_witness :
    (Store.state ⟨0, [7], false⟩ ≠ 1) ∧
    ((Store.set ⟨0, [7], false⟩ 1).2
        ++ ((Store.set ⟨0, [7], false⟩ 1).1.set 1).2
      = [Ev.notify 7 1]) :=
  ⟨by decide, (set_strict_equality_dedup ⟨0, [7], false⟩ 1 1 rfl (by decide)).2⟩

/-- **C5.** A `set` that changes the state assigns the new value and
notifies every current subscriber entry with the new state, in exactly
the order of the subscription list (registration order); the event list
is produced before `set` returns (the model is a total function). -/
theorem set_notifies_in_registration_order {T : Type} [DecidableEq T]
    (s : Store T) (v : T) (hne : s.state ≠ v) :
    s.set v = ({ s with state := v },
      s.subscriptions.map (fun id => Ev.notify id v)) :=
  set_of_ne s v hne

/-- Witness for C5: a store in state `0` with subscribers `[4, 2, 9]`. -/
theorem set_notifies_in_registration_order_witness :
    (Store.state ⟨0, [4, 2, 9], false⟩ ≠ 5) ∧
    Store.set ⟨0, [4, 2, 9], false⟩ 5
      = (⟨5, [4, 2, 9], false⟩, [Ev.notify 4 5, Ev.notify 2 5, Ev.notify 9 5]) :=
  ⟨by decide, set_notifies_in_registration_order ⟨0, [4, 2, 9], false⟩ 5 (by decide)⟩

/-- **C10.** On a store with zero subscribers, `set(v)` with `v` different
from the current state updates the stored state and emits no
notification; a subsequent `subscribe(callback)` (plain writable: no
hook) invokes the callback with `v`. -/
theorem set_with_no_subscribers_silent {T : Type} [DecidableEq T]
    (s : Store T) (v : T) (id : SubId)
    (hsubs : s.subscriptions = []) (hne : s.state ≠ v) :
    (s.set v).1.state = v ∧ (s.set v).2 = [] ∧
    ((s.set v).1.subscribe none id).2 = [Ev.notify id v] := by
  simp [Store.set, Store.subscribe, hookRun, hne, hsubs]

/-- Witness for C10: `writable(0)` then `set 5` then `subscribe 3`. -/
theorem set_with_no_subscribers_silent_witness :
    (Store.subscriptions (Store.init 0) = [] ∧ Store.state (Store.init 0) ≠ 5) ∧
    (((Store.init 0).set 5).1.state = 5 ∧ ((Store.init 0).set 5).2 = [] ∧
      (((Store.init 0).set 5).1.subscribe none 3).2 = [Ev.notify 3 5]) :=
  ⟨by decide, set_with_no_subscribers_silent (Store.init 0) 5 3 rfl (by decide)⟩

/-! ### Counting notifications to one subscriber -/

/-- Does this event notify subscriber `id`? -/
def isNotifyTo {T : Type} (id : SubId) : Ev T → Bool
  | Ev.notify j _ => j == id
  | _ => false

/-- Number of invocations of subscriber `id` recorded in an event list. -/
def notifyCount {T : Type} (id : SubId) (evs : List (Ev T)) : Nat :=
  (evs.filter (isNotifyTo id)).length

theorem notifyCount_append {T : Type} (id : SubId) (a b : List (Ev T)) :
    notifyCount id (a ++ b) = notifyCount id a + notifyCount id b := by
  simp [notifyCount, List.filter_append]

theorem notifyCount_map_notify {T : Type} (id : SubId) (subs : List SubId)
    (v : T) :
    notifyCount id (subs.map fun j => Ev.notify j v) = subs.count id := by
  induction subs with
  | nil => simp [notifyCount]
  | cons j subs ih =>
    by_cases h : j = id <;>
      simp [notifyCount, isNotifyTo, h, List.count_cons, ih] at * <;> omega

/-- Number of state-changing `set` calls when the values `vs` are set in
order starting from state `st` (the store deduplicates on strict
equality). -/
def setsChanges {T : Type} [DecidableEq T] : T → List T → Nat
  | _, [] => 0
  | st, v :: vs => if st = v then setsChanges st vs else 1 + setsChanges v vs

/-- `set` never changes the subscription list or the stored cleanup. -/
theorem set_subs_fixed {T : Type} [DecidableEq T] (s : Store T) (v : T) :
    (s.set v).1.subscriptions = s.subscriptions ∧
    (s.set v).1.onLastUnsubsribe = s.onLastUnsubsribe := by
  by_cases h : s.state = v <;> simp [Store.set, h]

theorem runSets_subs_fixed {T : Type} [DecidableEq T] (vs : List T) :
    ∀ s : Store T,
      (runSets s vs).1.subscriptions = s.subscriptions ∧
      (runSets s vs).1.onLastUnsubsribe = s.onLastUnsubsribe := by
  induction vs with
  | nil => intro s; simp [runSets]
  | cons v vs ih =>
    intro s
    by_cases h : s.state = v <;> simp [runSets, Store.set, h, ih]

/-- During a run of `set` calls every event is a `notify`. -/
theorem runSets_events_notify {T : Type} [DecidableEq T] (vs : List T) :
    ∀ (s : Store T) (e : Ev T), e ∈ (runSets s vs).2 → ∃ j w, e = Ev.notify j w := by
  induction vs with
  | nil => intro s e he; simp [runSets] at he
  | cons v vs ih =>
    intro s e he
    by_cases h : s.state = v
    · exact ih _ e (by simpa [runSets, Store.set, h] using he)
    · simp only [runSets, Store.set, if_neg h] at he
      rcases List.mem_append.mp he with hm | hm
      · rcases List.mem_map.mp hm with ⟨j, _, rfl⟩; exact ⟨j, v, rfl⟩
      · exact ih _ e hm

/-- Each state-changing `set` in a run notifies `id` once per occurrence
of `id` in the subscription list. -/
theorem runSets_notifyCount {T : Type} [DecidableEq T] (vs : List T)
    (id : SubId) :
    ∀ s : Store T, s.subscriptions.count id = 1 →
      notifyCount id (runSets s vs).2 = setsChanges s.state vs := by
  induction vs with
  | nil => intro s _; simp [runSets, notifyCount, setsChanges]
  | cons v vs ih =>
    intro s h
    by_cases hv : s.state = v
    · simp only [runSets, Store.set, if_pos hv]
      simpa [setsChanges, hv] using ih s h
    · simp only [runSets, Store.set, if_neg hv]
      rw [notifyCount_append, notifyCount_map_notify, h,
        ih { s with state := v } h]
      simp [setsChanges, hv]

/-- The number of state-changing `set` calls performed by the hook during
a `subscribe` call on store `s` (zero when no hook is present or the hook
does not fire because the store already had subscribers). -/
def hookChanges {T : Type} [DecidableEq T] (hook : Hook T) (s : Store T) : Nat :=
  match hook with
  | none => 0
  | some (sets, _) =>
    if s.subscriptions = [] then setsChanges s.state sets else 0

/-- **C3 counterexample.** `writable(0, set => set(1))`: the very first
`subscribe(cb)` invokes `cb` twice, not once — the callback is appended
to the subscription list before the activation hook runs, so the hook's
synchronous `set(1)` already notifies it, and then `run(state)` invokes
it again. -/
theorem subscribe_invoked_once_cex :
    notifyCount 0 ((Store.init (0 : Nat)).subscribe (some ([1], false)) 0).2
      = 2 := by
  decide

/-- **C3 amended.** Every `subscribe(callback)` call invokes the
callback `1 + k` times before returning, where `k` is the number of
state-changing `set` calls performed by the activation hook during the
call (`k = 0` when no hook fires or the hook changes nothing, giving
exactly one invocation with the current state); the final invocation
always carries the store's state as of `subscribe`'s return. -/
theorem subscribe_invocation_count {T : Type} [DecidableEq T]
    (hook : Hook T) (s : Store T) (id : SubId) :
    notifyCount id (s.subscribe hook id).2 = 1 + hookChanges hook s ∧
    (s.subscribe hook id).2.getLast?
      = some (Ev.notify id (s.subscribe hook id).1.state) := by
  have hlast : ∀ (l : List (Ev T)) (e : Ev T), (l ++ [e]).getLast? = some e := by
    intro l e; simp [List.getLast?_concat]
  refine ⟨?_, hlast _ _⟩
  match hook with
  | none =>
    simp [Store.subscribe, hookRun, notifyCount, isNotifyTo, hookChanges]
  | some (sets, ret) =>
    by_cases hlen : s.subscriptions = []
    · have hcount1 : (s.subscriptions ++ [id]).count id = 1 := by
        simp [hlen]
      have hfire :
          ({ s with subscriptions := s.subscriptions ++ [id] } :
            Store T).subscriptions.length = 1 := by
        simp [hlen]
      simp only [Store.subscribe, hookRun, if_pos hfire]
      rw [notifyCount_append]
      have hr := runSets_notifyCount sets id
        { s with subscriptions := s.subscriptions ++ [id] } hcount1
      simp only [hlen, List.nil_append] at hr
      simp only [notifyCount, List.filter_cons] at hr ⊢
      simp [isNotifyTo, notifyCount, hookChanges, hlen, hr,
        Nat.add_comm]
    · have hfire :
          ¬ ({ s with subscriptions := s.subscriptions ++ [id] } :
            Store T).subscriptions.length = 1 := by
        simp only [List.length_append, List.length_cons, List.length_nil]
        intro hc
        exact hlen (List.length_eq_zero.mp (by omega))
      simp [Store.subscribe, hookRun, if_neg hfire, notifyCount,
        isNotifyTo, hookChanges, hlen]

/-! ### Sequences of top-level subscribe / unsubscribe calls -/

/-- One top-level call on a store: `subscribe` with a (fresh or repeated)
callback reference, or running the unsubscribe closure obtained for that
callback reference. -/
inductive Op where
  | sub (id : SubId)
  | unsub (id : SubId)
deriving DecidableEq, Repr

def Op.isSub : Op → Bool
  | Op.sub _ => true
  | Op.unsub _ => false

def Op.target : Op → SubId
  | Op.sub id => id
  | Op.unsub id => id

def stepOp {T : Type} [DecidableEq T] (hook : Hook T) (s : Store T) :
    Op → Store T × List (Ev T)
  | Op.sub id => s.subscribe hook id
  | Op.unsub id => s.unsubscribe id

def execOps {T : Type} [DecidableEq T] (hook : Hook T) :
    Store T → List Op → Store T
  | s, [] => s
  | s, op :: ops => execOps hook (stepOp hook s op).1 ops

/-- Reachability invariant for a store whose hook returns a cleanup
function: a cleanup is stored exactly while the subscription list is
non-empty. -/
def StoreInv {T : Type} (s : Store T) : Prop :=
  s.onLastUnsubsribe = true ↔ s.subscriptions ≠ []

theorem hookRun_parts {T : Type} [DecidableEq T] (sets : List T) (ret : Bool)
    (s1 : Store T) :
    (hookRun (some (sets, ret)) s1).1.subscriptions = s1.subscriptions ∧
    (hookRun (some (sets, ret)) s1).1.onLastUnsubsribe
      = (if s1.subscriptions.length = 1 then ret else s1.onLastUnsubsribe) := by
  by_cases h : s1.subscriptions.length = 1 <;>
    simp [hookRun, h, runSets_subs_fixed]

/-- A non-empty filter residue yields an element different from `id`. -/
theorem filter_ne_nil_exists (l : List SubId) (id : SubId)
    (h : l.filter (fun fn => fn ≠ id) ≠ []) : ∃ x ∈ l, ¬x = id := by
  have hna : ¬ ∀ a ∈ l, a = id := by
    intro hall
    exact h (List.filter_eq_nil_iff.mpr (fun a ha => by simp [hall a ha]))
  push_neg at hna
  exact hna

/-- An empty filter residue means every subscriber equals `id`. -/
theorem filter_nil_all (l : List SubId) (id : SubId)
    (h : l.filter (fun fn => fn ≠ id) = []) : ∀ a ∈ l, a = id := by
  intro a ha
  by_contra hne
  have hm : a ∈ l.filter (fun fn => fn ≠ id) :=
    List.mem_filter.mpr ⟨ha, by simpa using hne⟩
  rw [h] at hm
  simp at hm

/-- Unsubscribe branch: the removal empties the subscription list. -/
theorem unsubscribe_empties {T : Type} (s : Store T) (id : SubId)
    (h : s.subscriptions.filter (fun fn => fn ≠ id) = []) :
    s.unsubscribe id
      = (⟨s.state, [], false⟩,
         if s.onLastUnsubsribe = true then [Ev.cleanupFired] else []) := by
  simp only [Store.unsubscribe]
  rw [h]
  rfl

/-- Unsubscribe branch: subscribers remain after the removal. -/
theorem unsubscribe_keeps {T : Type} (s : Store T) (id : SubId)
    (h : s.subscriptions.filter (fun fn => fn ≠ id) ≠ []) :
    s.unsubscribe id
      = ({ s with subscriptions := s.subscriptions.filter (fun fn => fn ≠ id) },
         []) := by
  simp only [Store.unsubscribe]
  rw [if_neg (fun hc => h (List.length_eq_zero.mp hc))]

theorem stepOp_inv {T : Type} [DecidableEq T] (sets : List T) (s : Store T)
    (op : Op) (h : StoreInv s) :
    StoreInv (stepOp (some (sets, true)) s op).1 := by
  cases op with
  | sub id =>
    simp only [stepOp, Store.subscribe, StoreInv]
    have hp := hookRun_parts sets true
      { s with subscriptions := s.subscriptions ++ [id] }
    rw [hp.1, hp.2]
    by_cases h1 :
        ({ s with subscriptions := s.subscriptions ++ [id] } :
          Store T).subscriptions.length = 1 <;> simp [h1]
    simp only [StoreInv] at h
    by_cases h0 : s.subscriptions = []
    · simp [h0] at h1
    · simp [h.mpr h0]
  | unsub id =>
    by_cases hf : s.subscriptions.filter (fun fn => fn ≠ id) = []
    · simp only [stepOp]
      rw [unsubscribe_empties s id hf]
      simp [StoreInv]
    · simp only [stepOp]
      rw [unsubscribe_keeps s id hf]
      have hne : s.subscriptions ≠ [] := by
        intro hc; rw [hc] at hf; simp at hf
      simp only [StoreInv] at h ⊢
      simp [h.mpr hne, hf]
      exact filter_ne_nil_exists s.subscriptions id hf

theorem execOps_inv {T : Type} [DecidableEq T] (sets : List T)
    (ops : List Op) :
    ∀ s : Store T, StoreInv s →
      StoreInv (execOps (some (sets, true)) s ops) := by
  induction ops with
  | nil => intro s h; exact h
  | cons op ops ih =>
    intro s h
    exact ih _ (stepOp_inv sets s op h)

theorem runSets_no_lifecycle_events {T : Type} [DecidableEq T]
    (vs : List T) (s : Store T) :
    Ev.hookFired ∉ (runSets s vs).2 ∧ Ev.cleanupFired ∉ (runSets s vs).2 := by
  constructor <;> intro hm <;>
    rcases runSets_events_notify vs s _ hm with ⟨j, w, hjw⟩ <;> simp at hjw

/-- **C2 counterexample.** `writable(0, hook)` where the hook returns a
cleanup: subscribing the same callback reference `5` twice and then
running one unsubscribe closure removes *both* entries (filter-based
removal by reference equality), so the deactivation cleanup fires on a
subscriber-count transition from 2 to 0 — not from 1 to 0 as claimed. -/
theorem activation_lifecycle_cex :
    (execOps (some (([] : List Nat), true)) (Store.init 0)
        [Op.sub 5, Op.sub 5]).subscriptions.length = 2 ∧
    ((execOps (some (([] : List Nat), true)) (Store.init 0)
        [Op.sub 5, Op.sub 5]).unsubscribe 5).2 = [Ev.cleanupFired] ∧
    ((execOps (some (([] : List Nat), true)) (Store.init 0)
        [Op.sub 5, Op.sub 5]).unsubscribe 5).1.subscriptions.length = 0 := by
  decide

/-- **C2 amended.** For a store built with an activation hook returning a
cleanup, over any sequence of subscribe/unsubscribe calls from the fresh
store: the hook fires on a step exactly when that step is a `subscribe`
on an empty subscription list (the 0 → 1 transition), and the
deactivation cleanup fires exactly when the step is an unsubscribe that
takes the subscription list from non-empty to empty (the size may drop by
more than one, since a duplicated callback reference is removed
wholesale); each step fires the cleanup at most once. -/
theorem activation_lifecycle {T : Type} [DecidableEq T] (sets : List T)
    (i0 : T) (ops : List Op) (op : Op) :
    (Ev.hookFired ∈
        (stepOp (some (sets, true))
          (execOps (some (sets, true)) (Store.init i0) ops) op).2
      ↔ op.isSub = true ∧
        (execOps (some (sets, true)) (Store.init i0) ops).subscriptions = []) ∧
    (Ev.cleanupFired ∈
        (stepOp (some (sets, true))
          (execOps (some (sets, true)) (Store.init i0) ops) op).2
      ↔ op.isSub = false ∧
        (execOps (some (sets, true)) (Store.init i0) ops).subscriptions ≠ [] ∧
        (execOps (some (sets, true)) (Store.init i0) ops).subscriptions.filter
          (fun fn => fn ≠ op.target) = []) ∧
    (stepOp (some (sets, true))
        (execOps (some (sets, true)) (Store.init i0) ops) op).2.count
      Ev.cleanupFired ≤ 1 := by
  set s := execOps (some (sets, true)) (Store.init i0) ops with hs
  have hinv : StoreInv s :=
    execOps_inv sets ops (Store.init i0) (by simp [StoreInv, Store.init])
  cases op with
  | sub id =>
    simp only [stepOp, Store.subscribe, Op.isSub]
    by_cases h1 :
        ({ s with subscriptions := s.subscriptions ++ [id] } :
          Store T).subscriptions.length = 1
    · have h0 : s.subscriptions = [] := by
        simp only [List.length_append, List.length_cons, List.length_nil] at h1
        exact List.length_eq_zero.mp (by omega)
      have hno := runSets_no_lifecycle_events sets
        (⟨s.state, [id], s.onLastUnsubsribe⟩ : Store T)
      simp [hookRun, h1, h0, hno.1, hno.2, List.count_eq_zero.mpr hno.2,
        List.count_append, List.count_cons]
    · have h0 : s.subscriptions ≠ [] := by
        intro hc; rw [hc] at h1; simp at h1
      simp [hookRun, h1, h0]
  | unsub id =>
    simp only [stepOp, Op.isSub, Op.target]
    by_cases hf : s.subscriptions.filter (fun fn => fn ≠ id) = []
    · rw [unsubscribe_empties s id hf]
      by_cases h0 : s.subscriptions = []
      · have hcl : s.onLastUnsubsribe = false := by
          rcases Bool.eq_false_or_eq_true s.onLastUnsubsribe with h | h
          · exact absurd h0 (hinv.mp h)
          · exact h
        simp [hcl, h0]
      · simp [hinv.mpr h0, h0, hf]
        exact filter_nil_all s.subscriptions id hf
    · rw [unsubscribe_keeps s id hf]
      simp [hf]
      intro _
      exact filter_ne_nil_exists s.subscriptions id hf

/-- **C8.** Running the unsubscribe closure a second time is harmless:
the store is unchanged by the second call, no event is produced by it,
and across both calls the deactivation cleanup fires exactly once (the
model is a total function, so no error is raised). -/
theorem unsubscribe_twice_cleanup_once {T : Type} [DecidableEq T]
    (s : Store T) (id : SubId)
    (hstored : s.onLastUnsubsribe = true)
    (hlast : s.subscriptions.filter (fun fn => fn ≠ id) = []) :
    ((s.unsubscribe id).2 ++ ((s.unsubscribe id).1.unsubscribe id).2).count
        Ev.cleanupFired = 1 ∧
    ((s.unsubscribe id).1.unsubscribe id).1 = (s.unsubscribe id).1 := by
  rw [unsubscribe_empties s id hlast]
  rw [unsubscribe_empties (⟨s.state, [], false⟩ : Store T) id (by rfl)]
  simp [hstored]

/-- Witness for C8: a store with one subscriber `4` and a stored cleanup;
unsubscribing `4` twice. -/
theorem unsubscribe_twice_cleanup_once_witness :
    (Store.onLastUnsubsribe (⟨0, [4], true⟩ : Store Nat) = true ∧
      (Store.subscriptions (⟨0, [4], true⟩ : Store Nat)).filter
        (fun fn => fn ≠ 4) = []) ∧
    (((Store.unsubscribe (⟨0, [4], true⟩ : Store Nat) 4).2
          ++ (((⟨0, [4], true⟩ : Store Nat).unsubscribe 4).1.unsubscribe 4).2).count
        Ev.cleanupFired = 1 ∧
      (((⟨0, [4], true⟩ : Store Nat).unsubscribe 4).1.unsubscribe 4).1
        = ((⟨0, [4], true⟩ : Store Nat).unsubscribe 4).1) :=
  ⟨⟨rfl, by decide⟩,
    unsubscribe_twice_cleanup_once (⟨0, [4], true⟩ : Store Nat) 4 rfl (by decide)⟩

/-! ### Throwing subscriber callbacks -/

/-- The notification pass `subscriptions.forEach(fn => fn(state))` when
callback `id` throws exactly if `throws id = true`: sequential
synchronous dispatch with no isolation, so the pass stops at the first
throwing callback (which is itself invoked) and the exception escapes.
Returns the invocation events of the pass and `true` iff no callback
threw. -/
def notifyRun {T : Type} (throws : SubId → Bool) (v : T) :
    List SubId → List (Ev T) × Bool
  | [] => ([], true)
  | id :: rest =>
    if throws id then ([Ev.notify id v], false)
    else
      let p := notifyRun throws v rest
      (Ev.notify id v :: p.1, p.2)

/-- `set` with possibly-throwing subscriber callbacks: the state is
assigned before the notification pass begins, and nothing catches an
exception raised during the pass. -/
def Store.setWithThrows {T : Type} [DecidableEq T] (throws : SubId → Bool)
    (s : Store T) (v : T) : Store T × List (Ev T) × Bool :=
  if s.state = v then (s, [], true)
  else
    let p := notifyRun throws v s.subscriptions
    ({ s with state := v }, p.1, p.2)

theorem notifyRun_abort {T : Type} (throws : SubId → Bool) (v : T)
    (t : SubId) (ht : throws t = true) (l2 : List SubId) :
    ∀ l1 : List SubId, (∀ i ∈ l1, throws i = false) →
      notifyRun throws v (l1 ++ t :: l2)
        = (l1.map (fun id => Ev.notify id v) ++ [Ev.notify t v], false) := by
  intro l1
  induction l1 with
  | nil => intro _; simp [notifyRun, ht]
  | cons i l1 ih =>
    intro h
    have hi : throws i = false := h i (by simp)
    simp only [List.cons_append, notifyRun, hi]
    simp [ih (fun j hj => h j (by simp [hj]))]

/-- When the subscriber list is `l1 ++ [t] ++ l2`, none of `l1` throws
and `t` throws, a state-changing `set` assigns the new value, invokes
exactly `l1` and then `t` (each once, in order), invokes no subscriber
of `l2`, and the exception propagates to the caller of `set` uncaught
(result flag `false`); the store keeps the value assigned before the
pass began. -/
theorem set_throwing_subscriber_aborts {T : Type} [DecidableEq T]
    (s : Store T) (v : T) (l1 l2 : List SubId) (t : SubId)
    (throws : SubId → Bool)
    (hsubs : s.subscriptions = l1 ++ t :: l2)
    (hl1 : ∀ i ∈ l1, throws i = false)
    (ht : throws t = true)
    (hne : s.state ≠ v) :
    (s.setWithThrows throws v).1.state = v ∧
    (s.setWithThrows throws v).2.1
      = l1.map (fun id => Ev.notify id v) ++ [Ev.notify t v] ∧
    (s.setWithThrows throws v).2.2 = false := by
  simp [Store.setWithThrows, if_neg hne, hsubs,
    notifyRun_abort throws v t ht l2 l1 hl1]

/-- `update = fn => { set(fn(state)); }` with possibly-throwing
subscribers: an exception raised during the notification pass escapes
`update` exactly as it escapes `set`, uncaught. -/
def Store.updateWithThrows {T : Type} [DecidableEq T] (throws : SubId → Bool)
    (s : Store T) (f : T → T) : Store T × List (Ev T) × Bool :=
  s.setWithThrows throws (f s.state)

/-- `subscribe` when the activation hook itself throws, after performing
the `set` calls in `done`: the callback is already appended (the append
precedes the hook call), the assignment `onLastUnsubsribe = ...` never
executes because its right-hand side threw, `run(state)` is never
reached, and the exception escapes `subscribe` uncaught.  When the hook
does not fire (store already had subscribers) `subscribe` completes
normally. -/
def Store.subscribeHookThrows {T : Type} [DecidableEq T] (done : List T)
    (s : Store T) (id : SubId) : Store T × List (Ev T) × Bool :=
  let s1 : Store T := { s with subscriptions := s.subscriptions ++ [id] }
  if s1.subscriptions.length = 1 then
    let q := runSets s1 done
    (q.1, Ev.hookFired :: q.2, false)
  else (s1, [Ev.notify id s1.state], true)

/-! ### Re-entrant subscribe / unsubscribe during a notification pass

For claim C6 subscriber callbacks are effectful: when invoked they may
re-entrantly call `subscribe` or run an unsubscribe closure on the same
(plain, hook-less) writable store.  `subscriptions = [...subscriptions,
run]` and `subscriptions = subscriptions.filter(...)` both *replace* the
array, so the `forEach` of a `set` call keeps iterating the array it
captured.  The interpreter is fuelled because a callback may subscribe a
callback that subscribes further callbacks, each invoked immediately. -/

/-- A re-entrant store call performed from inside a callback. -/
inductive ROp where
  | rsub (j : SubId)
  | runsub (j : SubId)
deriving DecidableEq, Repr

/-- Store state for the re-entrancy analysis (plain writable store,
no activation hook). -/
structure CStore (V : Type) where
  state : V
  subs : List SubId
deriving DecidableEq, Repr

/-- `fe` — callback invocation dispatched by the `forEach` of the `set`
pass; `si` — the immediate invocation `run(state)` performed by a
re-entrant `subscribe`. -/
inductive CEv (V : Type) where
  | fe (id : SubId) (v : V)
  | si (id : SubId) (v : V)
deriving DecidableEq, Repr

def CEv.isFe {V : Type} : CEv V → Bool
  | CEv.fe _ _ => true
  | CEv.si _ _ => false

/-- Run the list of re-entrant operations of one callback body.  `rsub j`
is `subscribe(j)`: append `j` (array replaced, not mutated), no hook
(plain writable), then immediately invoke `j`'s own behaviour;
`runsub j` is the unsubscribe closure: filter out `j` (array replaced).
`none` when the fuel runs out. -/
def runROps {V : Type} (beh : SubId → List ROp) :
    Nat → CStore V → List ROp → Option (CStore V × List (CEv V))
  | 0, _, _ => none
  | _ + 1, s, [] => some (s, [])
  | fuel + 1, s, ROp.runsub j :: rest =>
    runROps beh fuel { s with subs := s.subs.filter (fun fn => fn ≠ j) } rest
  | fuel + 1, s, ROp.rsub j :: rest => do
    let s1 : CStore V := { s with subs := s.subs ++ [j] }
    let (s2, e1) ← runROps beh fuel s1 (beh j)
    let (s3, e2) ← runROps beh fuel s2 rest
    pure (s3, CEv.si j s1.state :: (e1 ++ e2))

/-- The `forEach` of a `set` pass over the snapshot list captured when
the iteration started; the store itself evolves under the callbacks'
re-entrant operations.  Since the re-entrant operations never call
`set`, every dispatched callback receives the pass value `v`. -/
def foldPass {V : Type} (beh : SubId → List ROp) (fuel : Nat) (v : V) :
    List SubId → CStore V → Option (CStore V × List (CEv V))
  | [], s => some (s, [])
  | id :: rest, s => do
    let (s1, e1) ← runROps beh fuel s (beh id)
    let (s2, e2) ← foldPass beh fuel v rest s1
    pure (s2, CEv.fe id v :: (e1 ++ e2))

/-- `set` with re-entrant callbacks: dedup on strict equality, assign,
then iterate the subscription array captured at the start of the pass. -/
def setPass {V : Type} [DecidableEq V] (beh : SubId → List ROp) (fuel : Nat)
    (s : CStore V) (v : V) : Option (CStore V × List (CEv V)) :=
  if s.state = v then some (s, [])
  else foldPass beh fuel v s.subs { s with state := v }

/-- Re-entrant operations only produce `si` events, never `fe` ones. -/
theorem runROps_no_fe {V : Type} (beh : SubId → List ROp) :
    ∀ (fuel : Nat) (ops : List ROp) (s : CStore V)
      (r : CStore V × List (CEv V)),
      runROps beh fuel s ops = some r → r.2.filter CEv.isFe = [] := by
  intro fuel
  induction fuel with
  | zero => intro ops s r h; simp [runROps] at h
  | succ fuel ih =>
    intro ops s r h
    match ops with
    | [] =>
      simp only [runROps, Option.some.injEq] at h
      simp [← h]
    | ROp.runsub j :: rest =>
      exact ih rest _ r h
    | ROp.rsub j :: rest =>
      simp only [runROps] at h
      cases h1 : runROps beh fuel
          ({ s with subs := s.subs ++ [j] } : CStore V) (beh j) with
      | none => rw [h1] at h; simp at h
      | some p =>
        rw [h1] at h
        simp only [Option.bind_eq_bind, Option.some_bind] at h
        cases h2 : runROps beh fuel p.1 rest with
        | none => rw [h2] at h; simp at h
        | some q =>
          rw [h2] at h
          simp only [Option.bind_eq_bind, Option.some_bind,
            Option.pure_def, Option.some.injEq] at h
          rw [← h]
          simp [CEv.isFe, List.filter_append, ih _ _ _ h1, ih _ _ _ h2]

/-- The dispatch events of a pass are exactly the snapshot, in order. -/
theorem foldPass_fe {V : Type} (beh : SubId → List ROp) (fuel : Nat) (v : V) :
    ∀ (snap : List SubId) (s : CStore V) (r : CStore V × List (CEv V)),
      foldPass beh fuel v snap s = some r →
      r.2.filter CEv.isFe = snap.map (fun id => CEv.fe id v) := by
  intro snap
  induction snap with
  | nil =>
    intro s r h
    simp only [foldPass, Option.some.injEq] at h
    simp [← h]
  | cons id rest ih =>
    intro s r h
    simp only [foldPass] at h
    cases h1 : runROps beh fuel s (beh id) with
    | none => rw [h1] at h; simp at h
    | some p =>
      rw [h1] at h
      simp only [Option.bind_eq_bind, Option.some_bind] at h
      cases h2 : foldPass beh fuel v rest p.1 with
      | none => rw [h2] at h; simp at h
      | some q =>
        rw [h2] at h
        simp only [Option.bind_eq_bind, Option.some_bind,
          Option.pure_def, Option.some.injEq] at h
        rw [← h]
        simp [CEv.isFe, List.filter_append,
          runROps_no_fe beh fuel _ _ _ h1, ih _ _ h2]

/-- **C6.** During a single (terminating) `set` notification pass whose
callbacks re-entrantly subscribe and unsubscribe, the callbacks
dispatched by the pass are exactly the subscription list as of the start
of the iteration, each invoked exactly once, in order — no subscriber
present at the start is skipped, none is dispatched twice; the
(mandatory) immediate invocations performed by re-entrant `subscribe`
calls are the separate `si` events. -/
theorem set_pass_iterates_snapshot {V : Type} [DecidableEq V]
    (beh : SubId → List ROp) (fuel : Nat) (s : CStore V) (v : V)
    (r : CStore V × List (CEv V))
    (hne : s.state ≠ v) (hrun : setPass beh fuel s v = some r) :
    r.2.filter CEv.isFe = s.subs.map (fun id => CEv.fe id v) := by
  simp only [setPass, if_neg hne] at hrun
  exact foldPass_fe beh fuel v s.subs _ r hrun

/-- Witness for C6: subscribers `[0, 1]` where callback `0` re-entrantly
unsubscribes `1` and subscribes a fresh callback `2`; subscriber `1` is
still dispatched by the pass. -/
theorem set_pass_iterates_snapshot_witness :
    (CStore.state (⟨0, [0, 1]⟩ : CStore Nat) ≠ 5 ∧
      setPass (fun i => if i = 0 then [ROp.runsub 1, ROp.rsub 2] else [])
          9 (⟨0, [0, 1]⟩ : CStore Nat) 5
        = some (⟨5, [0, 2]⟩, [CEv.fe 0 5, CEv.si 2 5, CEv.fe 1 5])) ∧
    [CEv.fe 0 5, CEv.si 2 5, CEv.fe 1 5].filter CEv.isFe
      = [0, 1].map (fun id => CEv.fe id (5 : Nat)) := by
  refine ⟨⟨by decide, by decide⟩, ?_⟩
  have h := set_pass_iterates_snapshot
    (fun i => if i = 0 then [ROp.runsub 1, ROp.rsub 2] else [])
    9 (⟨0, [0, 1]⟩ : CStore Nat) 5
    (⟨5, [0, 2]⟩, [CEv.fe 0 5, CEv.si 2 5, CEv.fe 1 5])
    (by decide) (by decide)
  simpa using h

/-! ### Derived stores, synchronous (return-value) mode

`derived(stores, fn, initial_value)` with `fn.length < 2`
(`valueIsReturned`) builds `readable(initial_value, set => { ... })`.
In claim C1's scenario the source stores are plain writables whose only
subscriber is the activation's per-source callback, the derived
writable's subscriber is the observer that triggered the activation, and
`initial_value` is omitted (`undefined`, modelled `none`).  The `values`
array is a sparse JS array before every source has reported; holes are
`none`. -/

/-- Combined state: the derived writable (`dstate`, `dsubs`), the source
stores' states (`srcs`), and the activation closure's `values` array and
`inited` flag. -/
structure DStore (V : Type) where
  dstate : Option V
  dsubs : List SubId
  srcs : List V
  values : List (Option V)
  inited : Bool
deriving DecidableEq, Repr

/-- `dnotify` — a subscriber of the derived store invoked with the
derived state; `fcall` — the combine function `fn` invoked with the
`values` array. -/
inductive DEv (V : Type) where
  | dnotify (id : SubId) (v : Option V)
  | fcall (args : List (Option V))
deriving DecidableEq, Repr

/-- `values[index] = value` on a possibly-sparse JS array: pads with
holes up to `index` when assigning past the end. -/
def setIdx {V : Type} : List (Option V) → Nat → V → List (Option V)
  | _ :: rest, 0, v => some v :: rest
  | [], 0, v => [some v]
  | x :: rest, i + 1, v => x :: setIdx rest i v
  | [], i + 1, v => none :: setIdx [] i v

/-- The derived writable's internal `set`: dedup on strict equality
against the derived state, assign, notify the derived subscribers. -/
def dset {V : Type} [DecidableEq V] (s : DStore V) (r : V) :
    DStore V × List (DEv V) :=
  if s.dstate = some r then (s, [])
  else ({ s with dstate := some r },
        s.dsubs.map (fun id => DEv.dnotify id (some r)))

/-- `sync()` in synchronous mode: `const result = fn(values, set);
set(result);` — no cleanup is ever registered since `valueIsReturned`. -/
def dsync {V : Type} [DecidableEq V] (f : List (Option V) → V)
    (s : DStore V) : DStore V × List (DEv V) :=
  let p := dset s (f s.values)
  (p.1, DEv.fcall s.values :: p.2)

/-- The callback subscribed to source `i`: `values[index] = value;
inited && sync();`. -/
def srcCb {V : Type} [DecidableEq V] (f : List (Option V) → V)
    (s : DStore V) (i : Nat) (v : V) : DStore V × List (DEv V) :=
  let s1 := { s with values := setIdx s.values i v }
  if s1.inited then dsync f s1 else (s1, [])

/-- `stores_array.map((store, index) => store.subscribe(...))`: subscribe
to each source in order; each source's `subscribe` immediately invokes
the fresh callback with that source's current state. -/
def subSources {V : Type} [DecidableEq V] (f : List (Option V) → V) :
    DStore V → Nat → List V → DStore V × List (DEv V)
  | s, _, [] => (s, [])
  | s, i, v :: rest =>
    let p := srcCb f s i v
    let q := subSources f p.1 (i + 1) rest
    (q.1, p.2 ++ q.2)

/-- The first subscription to the derived store: the underlying
writable appends the subscriber, the activation hook runs (subscribe to
every source while `inited` is false, then `inited = true; sync()`), and
finally `run(state)` invokes the subscriber with the derived state. -/
def dsubscribe {V : Type} [DecidableEq V] (f : List (Option V) → V)
    (srcs : List V) (id : SubId) : DStore V × List (DEv V) :=
  let s0 : DStore V := ⟨none, [id], srcs, [], false⟩
  let p := subSources f s0 0 srcs
  let s2 := { p.1 with inited := true }
  let q := dsync f s2
  (q.1, p.2 ++ q.2 ++ [DEv.dnotify id q.1.dstate])

/-- A later `set` on source `i` (only existing sources can be set):
dedup at the source writable, then its single subscriber — the
activation's callback — runs. -/
def srcSet {V : Type} [DecidableEq V] (f : List (Option V) → V)
    (s : DStore V) (i : Nat) (v : V) : DStore V × List (DEv V) :=
  if i < s.srcs.length then
    if s.srcs[i]? = some v then (s, [])
    else srcCb f { s with srcs := s.srcs.set i v } i v
  else (s, [])

def runSrcSets {V : Type} [DecidableEq V] (f : List (Option V) → V) :
    DStore V → List (Nat × V) → DStore V × List (DEv V)
  | s, [] => (s, [])
  | s, (i, v) :: ops =>
    let p := srcSet f s i v
    let q := runSrcSets f p.1 ops
    (q.1, p.2 ++ q.2)

/-- The first derived-subscriber notification in a trace. -/
def firstNotify {V : Type} : List (DEv V) → Option (SubId × Option V)
  | [] => none
  | DEv.dnotify id v :: _ => some (id, v)
  | DEv.fcall _ :: rest => firstNotify rest

/-- An event is harmless for C1 unless it is an `fn` call on a `values`
array with a hole (a source that has not reported). -/
def DEv.noHoles {V : Type} : DEv V → Bool
  | DEv.fcall args => args.all (fun o => o.isSome)
  | DEv.dnotify _ _ => true

theorem setIdx_append {V : Type} :
    ∀ (vs : List (Option V)) (v : V), setIdx vs vs.length v = vs ++ [some v] := by
  intro vs v
  induction vs with
  | nil => rfl
  | cons x rest ih => simp [setIdx, List.length_cons, ih]

theorem setIdx_map_some {V : Type} :
    ∀ (srcs : List V) (i : Nat) (v : V), i < srcs.length →
      setIdx (srcs.map some) i v = (srcs.set i v).map some := by
  intro srcs
  induction srcs with
  | nil => intro i v h; simp at h
  | cons x rest ih =>
    intro i v h
    cases i with
    | zero => simp [setIdx]
    | succ i => simpa [setIdx] using ih i v (by simpa using h)

theorem subSources_gather {V : Type} [DecidableEq V]
    (f : List (Option V) → V) :
    ∀ (rest : List V) (s : DStore V), s.inited = false →
      subSources f s s.values.length rest
        = ({ s with values := s.values ++ rest.map some }, []) := by
  intro rest
  induction rest with
  | nil => intro s _; simp [subSources]
  | cons v rest ih =>
    intro s hin
    have h1 : setIdx s.values s.values.length v = s.values ++ [some v] :=
      setIdx_append _ _
    have h2 := ih { s with values := s.values ++ [some v] } hin
    simp only [DStore.values] at h2
    rw [hin] at h2
    simp only [subSources, srcCb, h1, hin, Bool.false_eq_true, if_false]
    rw [show s.values.length + 1
        = ((s.values ++ [some v]) : List (Option V)).length by simp]
    rw [h2]
    simp

/-- The whole activation sequence of the first subscription, evaluated:
initial values are gathered silently (no `sync` while `inited` is
false), then one `fn` call on the fully-gathered values and the
resulting `set`, then `run(state)`. -/
theorem dsubscribe_eq {V : Type} [DecidableEq V] (f : List (Option V) → V)
    (srcs : List V) (id : SubId) :
    dsubscribe f srcs id
      = (⟨some (f (srcs.map some)), [id], srcs, srcs.map some, true⟩,
         [DEv.fcall (srcs.map some),
          DEv.dnotify id (some (f (srcs.map some))),
          DEv.dnotify id (some (f (srcs.map some)))]) := by
  simp only [dsubscribe]
  have h := subSources_gather f srcs (⟨none, [id], srcs, [], false⟩ : DStore V) rfl
  simp only [DStore.values, List.length_nil] at h
  rw [h]
  simp [dsync, dset]

/-- The invariant after activation: the `values` array mirrors the
source states, hole-free. -/
def Gathered {V : Type} (s : DStore V) : Prop := s.values = s.srcs.map some

theorem dsync_gathered {V : Type} [DecidableEq V]
    (f : List (Option V) → V) (s : DStore V) (hf : Gathered s) :
    Gathered (dsync f s).1 ∧ ∀ e ∈ (dsync f s).2, e.noHoles = true := by
  have hf' : s.values = s.srcs.map some := hf
  unfold dsync dset
  by_cases hd : s.dstate = some (f s.values)
  · simp only [if_pos hd]
    refine ⟨hf, ?_⟩
    intro e he
    simp only [List.mem_cons, List.not_mem_nil, or_false] at he
    subst he
    simp [DEv.noHoles, hf']
  · simp only [if_neg hd]
    refine ⟨hf, ?_⟩
    intro e he
    simp only [List.mem_cons] at he
    rcases he with rfl | he
    · simp [DEv.noHoles, hf']
    · rcases List.mem_map.mp he with ⟨j, _, rfl⟩
      simp [DEv.noHoles]

theorem srcCb_gathered {V : Type} [DecidableEq V]
    (f : List (Option V) → V) (s : DStore V) (i : Nat) (v : V)
    (hsv : setIdx s.values i v = s.srcs.map some) :
    Gathered (srcCb f s i v).1 ∧
    ∀ e ∈ (srcCb f s i v).2, e.noHoles = true := by
  unfold srcCb
  have hg : Gathered ({ s with values := setIdx s.values i v } : DStore V) := by
    simpa [Gathered] using hsv
  by_cases hin : s.inited = true
  · rw [if_pos hin]
    exact dsync_gathered f _ hg
  · rw [if_neg hin]
    exact ⟨hg, by simp⟩

theorem srcSet_gathered {V : Type} [DecidableEq V]
    (f : List (Option V) → V) (s : DStore V) (i : Nat) (v : V)
    (hf : Gathered s) :
    Gathered (srcSet f s i v).1 ∧
    ∀ e ∈ (srcSet f s i v).2, e.noHoles = true := by
  by_cases hlen : i < s.srcs.length
  · by_cases hsame : s.srcs[i]? = some v
    · simp only [srcSet, if_pos hlen, if_pos hsame]
      exact ⟨hf, by simp⟩
    · simp only [srcSet, if_pos hlen, if_neg hsame]
      apply srcCb_gathered
      show setIdx s.values i v = (s.srcs.set i v).map some
      rw [hf]
      exact setIdx_map_some s.srcs i v hlen
  · simp only [srcSet, if_neg hlen]
    exact ⟨hf, by simp⟩

theorem runSrcSets_gathered {V : Type} [DecidableEq V]
    (f : List (Option V) → V) :
    ∀ (ops : List (Nat × V)) (s : DStore V), Gathered s →
      ∀ e ∈ (runSrcSets f s ops).2, e.noHoles = true := by
  intro ops
  induction ops with
  | nil => intro s _ e he; simp [runSrcSets] at he
  | cons op ops ih =>
    intro s hf e he
    obtain ⟨i, v⟩ := op
    have h1 := srcSet_gathered f s i v hf
    simp only [runSrcSets, List.mem_append] at he
    rcases he with he | he
    · exact h1.2 e he
    · exact ih _ h1.1 e he

/-- **C1.** Subscribing to a derived store over sources with a
synchronous combine: the first value notified to the subscriber is the
combine applied to the fully-gathered initial source values, and — over
the activation and any sequence of later source `set` calls — the
combine function is never invoked on a `values` array with a hole, so no
partial combination is ever computed, let alone observed.  Instantiated
at `a = writable(2)`, `b = writable(10)`, sum: the first notified value
is `12`. -/
theorem derived_first_notified_value {V : Type} [DecidableEq V]
    (f : List (Option V) → V) (srcs : List V) (id : SubId)
    (ops : List (Nat × V)) :
    firstNotify ((dsubscribe f srcs id).2
        ++ (runSrcSets f (dsubscribe f srcs id).1 ops).2)
      = some (id, some (f (srcs.map some))) ∧
    (∀ e ∈ (dsubscribe f srcs id).2
        ++ (runSrcSets f (dsubscribe f srcs id).1 ops).2,
      e.noHoles = true) ∧
    firstNotify ((dsubscribe
        (fun vs => (vs.filterMap (fun o => o)).sum) [2, 10] 0).2)
      = some (0, some 12) := by
  rw [dsubscribe_eq]
  refine ⟨by simp [firstNotify], ?_, by decide⟩
  intro e he
  simp only [List.mem_append, List.mem_cons, List.not_mem_nil,
    or_false] at he
  rcases he with (rfl | rfl | rfl) | he
  · simp [DEv.noHoles]
  · simp [DEv.noHoles]
  · simp [DEv.noHoles]
  · exact runSrcSets_gathered f ops
      (⟨some (f (srcs.map some)), [id], srcs, srcs.map some, true⟩ : DStore V)
      rfl e he

/-! ### Derived stores, manual (async) mode — cleanup lifecycle

`derived(a, (x, set) => { ...; return cleanupFn }, initial)` with
`fn.length >= 2`: `sync()` runs the pending cleanup, invokes `fn`, and
captures `fn`'s return value as the new pending cleanup exactly when it
is a function (`ret k` below says whether the k-th invocation, counted
from 0, returns one).  A manual-mode `fn` calls the derived writable's
`set` itself, possibly later; those `set` calls never re-enter `sync`,
so they do not affect the cleanup lifecycle and are not traced here.
The teardown `stop()` runs when the derived store's last subscriber
unsubscribes (the writable's `onLastUnsubsribe`, claims C2/C8). -/

/-- The activation closure's state for a single-source manual-mode
derived store: the source writable's state, `values[0]`, `inited`, the
pending `cleanup` (tagged by the `fn` invocation that registered it) and
the number of `fn` invocations so far. -/
structure MDer (V : Type) where
  src : V
  value0 : Option V
  inited : Bool
  cleanup : Option Nat
  calls : Nat
deriving DecidableEq, Repr

/-- `fcall k` — the k-th invocation of the combine `fn`; `cleanRun k` —
the cleanup registered by invocation `k` runs. -/
inductive MEv where
  | fcall (k : Nat)
  | cleanRun (k : Nat)
deriving DecidableEq, Repr

/-- The pending cleanup as a zero-or-one element list. -/
def pend {V : Type} (s : MDer V) : List Nat :=
  match s.cleanup with
  | some k => [k]
  | none => []

/-- `sync()` in manual mode: `cleanup && cleanup(); const result =
fn(values[0], set); cleanup = typeof result === 'function' ? result :
null;`. -/
def msync {V : Type} (ret : Nat → Bool) (s : MDer V) : MDer V × List MEv :=
  let e0 : List MEv :=
    match s.cleanup with
    | some k => [MEv.cleanRun k]
    | none => []
  ({ s with
      calls := s.calls + 1
      cleanup := if ret s.calls then some s.calls else none },
   e0 ++ [MEv.fcall s.calls])

/-- The callback subscribed to the single source:
`values[0] = value; inited && sync();`. -/
def mcb {V : Type} (ret : Nat → Bool) (s : MDer V) (v : V) :
    MDer V × List MEv :=
  let s1 := { s with value0 := some v }
  if s1.inited then msync ret s1 else (s1, [])

/-- Activation: subscribe to the source (immediate callback with its
current state, `inited` still false), then `inited = true; sync()`. -/
def mactivate {V : Type} (ret : Nat → Bool) (src0 : V) : MDer V × List MEv :=
  let s0 : MDer V := ⟨src0, none, false, none, 0⟩
  let p := mcb ret s0 src0
  let s2 := { p.1 with inited := true }
  let q := msync ret s2
  (q.1, p.2 ++ q.2)

/-- A later `set` on the source: dedup at the source writable, then its
single subscriber — the activation's callback — runs. -/
def msrcSet {V : Type} [DecidableEq V] (ret : Nat → Bool) (s : MDer V)
    (v : V) : MDer V × List MEv :=
  if s.src = v then (s, [])
  else mcb ret { s with src := v } v

def runMSets {V : Type} [DecidableEq V] (ret : Nat → Bool) :
    MDer V → List V → MDer V × List MEv
  | s, [] => (s, [])
  | s, v :: vs =>
    let p := msrcSet ret s v
    let q := runMSets ret p.1 vs
    (q.1, p.2 ++ q.2)

/-- `stop()` on final teardown: `unsubscribers.forEach(...); cleanup &&
cleanup();`. -/
def mstop {V : Type} (s : MDer V) : MDer V × List MEv :=
  (s, match s.cleanup with
      | some k => [MEv.cleanRun k]
      | none => [])

/-- The cleanup runs recorded in a trace, in order. -/
def cleanRuns : List MEv → List Nat
  | [] => []
  | MEv.cleanRun k :: rest => k :: cleanRuns rest
  | MEv.fcall _ :: rest => cleanRuns rest

theorem cleanRuns_append (a b : List MEv) :
    cleanRuns (a ++ b) = cleanRuns a ++ cleanRuns b := by
  induction a with
  | nil => rfl
  | cons e rest ih => cases e <;> simp [cleanRuns, ih]

theorem cleanRuns_mstop {V : Type} (s : MDer V) :
    cleanRuns (mstop s).2 = pend s := by
  cases h : s.cleanup <;> simp [mstop, pend, h, cleanRuns]

/-- One `sync` flushes the pending cleanup and registers the new one. -/
theorem msync_ginv {V : Type} (ret : Nat → Bool) (s : MDer V)
    (acc : List Nat)
    (h : acc ++ pend s = (List.range s.calls).filter ret) :
    (acc ++ cleanRuns (msync ret s).2) ++ pend (msync ret s).1
      = (List.range (msync ret s).1.calls).filter ret := by
  cases hc : s.cleanup with
  | none =>
    rw [pend, hc] at h
    cases hr : ret s.calls <;>
      simp [msync, hc, hr, pend, cleanRuns, cleanRuns_append,
        List.range_succ, List.filter_append, h]
  | some k =>
    rw [pend, hc] at h
    cases hr : ret s.calls <;>
      simp [msync, hc, hr, pend, cleanRuns, cleanRuns_append,
        List.range_succ, List.filter_append, ← h]

theorem msrcSet_ginv {V : Type} [DecidableEq V] (ret : Nat → Bool)
    (s : MDer V) (v : V) (acc : List Nat)
    (h : acc ++ pend s = (List.range s.calls).filter ret) :
    (acc ++ cleanRuns (msrcSet ret s v).2) ++ pend (msrcSet ret s v).1
      = (List.range (msrcSet ret s v).1.calls).filter ret := by
  by_cases hv : s.src = v
  · simpa [msrcSet, hv, cleanRuns] using h
  · simp only [msrcSet, if_neg hv, mcb]
    by_cases hin : s.inited = true
    · rw [if_pos hin]
      exact msync_ginv ret _ acc h
    · rw [if_neg hin]
      simpa [cleanRuns] using h

theorem runMSets_ginv {V : Type} [DecidableEq V] (ret : Nat → Bool) :
    ∀ (sets : List V) (s : MDer V) (acc : List Nat),
      acc ++ pend s = (List.range s.calls).filter ret →
      (acc ++ cleanRuns (runMSets ret s sets).2)
          ++ pend (runMSets ret s sets).1
        = (List.range (runMSets ret s sets).1.calls).filter ret := by
  intro sets
  induction sets with
  | nil => intro s acc h; simpa [runMSets, cleanRuns] using h
  | cons v vs ih =>
    intro s acc h
    have h1 := msrcSet_ginv ret s v acc h
    have h2 := ih (msrcSet ret s v).1 (acc ++ cleanRuns (msrcSet ret s v).2) h1
    simpa [runMSets, cleanRuns_append, List.append_assoc] using h2

theorem mactivate_ginv {V : Type} (ret : Nat → Bool) (src0 : V) :
    cleanRuns (mactivate ret src0).2 ++ pend (mactivate ret src0).1
      = (List.range (mactivate ret src0).1.calls).filter ret := by
  cases hr : ret 0 <;>
    simp [mactivate, mcb, msync, pend, cleanRuns, cleanRuns_append, hr,
      List.range_succ]

/-- **C7.** Over a full manual-mode run — activation, any sequence of
source `set` calls, final teardown — the cleanup invocations recorded in
the trace are exactly the `fn` invocations that registered a cleanup
(one `cleanRun k` per invocation `k` whose result was a function), each
exactly once and in registration order: every registered cleanup runs
once (at the `sync` of the next recomputation, or at `stop()` for the
last registration) and none runs twice; the trace is duplicate-free. -/
theorem manual_cleanup_exactly_once {V : Type} [DecidableEq V]
    (ret : Nat → Bool) (src0 : V) (sets : List V) :
    cleanRuns ((mactivate ret src0).2
        ++ (runMSets ret (mactivate ret src0).1 sets).2
        ++ (mstop (runMSets ret (mactivate ret src0).1 sets).1).2)
      = (List.range
          (runMSets ret (mactivate ret src0).1 sets).1.calls).filter ret ∧
    (cleanRuns ((mactivate ret src0).2
        ++ (runMSets ret (mactivate ret src0).1 sets).2
        ++ (mstop (runMSets ret (mactivate ret src0).1 sets).1).2)).Nodup := by
  have h := runMSets_ginv ret sets (mactivate ret src0).1
    (cleanRuns (mactivate ret src0).2) (mactivate_ginv ret src0)
  have hmain :
      cleanRuns ((mactivate ret src0).2
          ++ (runMSets ret (mactivate ret src0).1 sets).2
          ++ (mstop (runMSets ret (mactivate ret src0).1 sets).1).2)
        = (List.range
            (runMSets ret (mactivate ret src0).1 sets).1.calls).filter ret := by
    rw [cleanRuns_append, cleanRuns_append, cleanRuns_mstop]
    rw [← h]
  refine ⟨hmain, ?_⟩
  rw [hmain]
  exact List.Nodup.filter ret (List.nodup_range _)

/-! ### Uncaught propagation of user-code errors -/

/-- First subscription to a sync-mode derived store whose combine
function throws when invoked: the initial source values are gathered
silently (`inited` is still false, so the combine is not invoked during
the gathering burst), then the single `sync()` invokes the combine,
whose exception escapes the activation hook and the `subscribe` call
uncaught — the derived state is never set and the subscriber is never
notified.  The argument `g` is the pure value the combine would have
produced; it is never consumed because the invocation throws. -/
def dsubscribeFnThrows {V : Type} [DecidableEq V] (g : List (Option V) → V)
    (srcs : List V) (id : SubId) : DStore V × List (DEv V) × Bool :=
  let s0 : DStore V := ⟨none, [id], srcs, [], false⟩
  let p := subSources g s0 0 srcs
  let s2 := { p.1 with inited := true }
  (s2, p.2 ++ [DEv.fcall s2.values], false)

/-- **C9.** Errors raised by user-supplied code propagate synchronously
and uncaught to the caller of the triggering operation.
(1) `set`: a throwing subscriber ends the notification pass — the state
keeps the value assigned before the pass began, exactly the earlier
subscribers and the thrower are invoked, no later subscriber runs, and
the exception escapes `set`.  (2) `update` is `set(fn(state))`, so the
same exception escapes `update`.  (3) `subscribe`: a throwing
activation hook's exception escapes `subscribe` — no cleanup is stored
and the new callback never receives its `run(state)` invocation, only
the notifications from the hook's completed state-changing `set` calls.
(4) derived activation: a throwing combine's exception escapes the
`subscribe` that triggered the activation — the derived state is never
set and the derived subscriber is never notified. -/
theorem user_errors_propagate {T V : Type} [DecidableEq T] [DecidableEq V] :
    (∀ (s : Store T) (v : T) (l1 l2 : List SubId) (t : SubId)
        (throws : SubId → Bool),
      s.subscriptions = l1 ++ t :: l2 → (∀ i ∈ l1, throws i = false) →
      throws t = true → s.state ≠ v →
      (s.setWithThrows throws v).1.state = v ∧
      (s.setWithThrows throws v).2.1
        = l1.map (fun id => Ev.notify id v) ++ [Ev.notify t v] ∧
      (s.setWithThrows throws v).2.2 = false) ∧
    (∀ (s : Store T) (f : T → T) (throws : SubId → Bool),
      s.updateWithThrows throws f = s.setWithThrows throws (f s.state)) ∧
    (∀ (done : List T) (s : Store T) (id : SubId), s.subscriptions = [] →
      (s.subscribeHookThrows done id).2.2 = false ∧
      (s.subscribeHookThrows done id).1.onLastUnsubsribe
        = s.onLastUnsubsribe ∧
      notifyCount id (s.subscribeHookThrows done id).2.1
        = setsChanges s.state done) ∧
    (∀ (g : List (Option V) → V) (srcs : List V) (id : SubId),
      dsubscribeFnThrows g srcs id
        = (⟨none, [id], srcs, srcs.map some, true⟩,
           [DEv.fcall (srcs.map some)], false)) := by
  refine ⟨?_, ?_, ?_, ?_⟩
  · intro s v l1 l2 t throws h1 h2 h3 h4
    exact set_throwing_subscriber_aborts s v l1 l2 t throws h1 h2 h3 h4
  · intro s f throws
    rfl
  · intro done s id hempty
    have hfire : ({ s with subscriptions := s.subscriptions ++ [id] } :
        Store T).subscriptions.length = 1 := by
      simp [hempty]
    have hsub := runSets_subs_fixed done
      ({ s with subscriptions := s.subscriptions ++ [id] } : Store T)
    have hcount1 : ({ s with subscriptions := s.subscriptions ++ [id] } :
        Store T).subscriptions.count id = 1 := by
      simp [hempty]
    have hrc := runSets_notifyCount done id
      ({ s with subscriptions := s.subscriptions ++ [id] } : Store T) hcount1
    simp only [Store.subscribeHookThrows, if_pos hfire]
    refine ⟨by trivial, ?_, ?_⟩
    · exact hsub.2
    · simpa [notifyCount, List.filter_cons, isNotifyTo] using hrc
  · intro g srcs id
    simp only [dsubscribeFnThrows]
    have h := subSources_gather g srcs
      (⟨none, [id], srcs, [], false⟩ : DStore V) rfl
    simp only [DStore.values, List.length_nil] at h
    rw [h]
    simp

/-- Witness for C9: (1) subscribers `[1, 2, 3]` where callback `2`
throws during `set 7`; (2) `update(n => n + 1)` on the same shape of
store; (3) `writable(0, hook)` whose hook sets `1` and then throws,
first subscriber `6`; (4) the derived scenario over sources `[2, 10]`
with a throwing combine. -/
theorem user_errors_propagate_witness :
    ((Store.subscriptions (⟨0, [1, 2, 3], false⟩ : Store Nat)
        = [1] ++ 2 :: [3] ∧
      Store.state (⟨0, [1, 2, 3], false⟩ : Store Nat) ≠ 7) ∧
      ((⟨0, [1, 2, 3], false⟩ : Store Nat).setWithThrows
          (fun j => decide (j = 2)) 7).1.state = 7 ∧
      ((⟨0, [1, 2, 3], false⟩ : Store Nat).setWithThrows
          (fun j => decide (j = 2)) 7).2.1
        = [Ev.notify 1 7, Ev.notify 2 7] ∧
      ((⟨0, [1, 2, 3], false⟩ : Store Nat).setWithThrows
          (fun j => decide (j = 2)) 7).2.2 = false) ∧
    ((⟨0, [4], false⟩ : Store Nat).updateWithThrows (fun j => decide (j = 4))
        (fun n => n + 1)
      = (⟨0, [4], false⟩ : Store Nat).setWithThrows
          (fun j => decide (j = 4)) 1) ∧
    (((Store.init (0 : Nat)).subscribeHookThrows [1] 6).2.2 = false ∧
      notifyCount 6 ((Store.init (0 : Nat)).subscribeHookThrows [1] 6).2.1
        = setsChanges (0 : Nat) [1]) ∧
    dsubscribeFnThrows (fun vs => (vs.filterMap (fun o => o)).sum) [2, 10] 0
      = (⟨none, [0], [2, 10], [some 2, some 10], true⟩,
         [DEv.fcall [some 2, some 10]], false) := by
  have h := @user_errors_propagate Nat Nat _ _
  have h1 := h.1 ⟨0, [1, 2, 3], false⟩ 7 [1] [3] 2 (fun j => decide (j = 2))
    rfl (by decide) rfl (by decide)
  have h3 := h.2.2.1 [1] (Store.init 0) 6 rfl
  refine ⟨⟨⟨rfl, by decide⟩, h1.1, ?_, h1.2.2⟩, ?_, ⟨h3.1, h3.2.2⟩, ?_⟩
  · simpa using h1.2.1
  · exact h.2.1 ⟨0, [4], false⟩ (fun n => n + 1) (fun j => decide (j = 4))
  · simpa using h.2.2.2 (fun vs => (vs.filterMap (fun o => o)).sum) [2, 10] 0

end Stores
